import Mathlib

/-!
Shallow embedding of the NIFTY option-chain analytics core
(src/services/analysis.ts, src/services/dataService.ts,
src/services/trendlyne.ts, types.ts) and proofs about it.

Conventions of the embedding:
* JS numbers are modelled as exact rationals (prices, ratios) and
  integers (open interest, volumes, change-in-OI), since every claim is
  about exact arithmetic on realistic market data, not float rounding.
* The browser localStorage collaborator is modelled by explicit state
  passing: each store operation maps the stored list to the new stored
  list.
* Date parsing (new Date(ts).getTime()) is modelled by an abstract
  function parse : String -> Int supplied as a parameter; deduplication
  compares exact timestamp strings, as the source does.
-/

/-- Trend classification literal union type from types.ts
(Bullish | Bearish | Neutral). -/
inductive Trend where
  | Bullish
  | Bearish
  | Neutral
deriving DecidableEq, Repr

/-- OptionData from types.ts: one option leg (Call or Put) at one strike.
Numeric JS fields are embedded as Int (counts) and Rat (prices). -/
structure OptionData where
  strikePrice : ℚ
  expiryDate : String
  underlying : String
  identifier : String
  openInterest : ℤ
  changeinOpenInterest : ℤ
  pchangeinOpenInterest : ℚ
  totalTradedVolume : ℤ
  impliedVolatility : ℚ
  lastPrice : ℚ
  change : ℚ
  pChange : ℚ
  totalBuyQuantity : ℤ
  totalSellQuantity : ℤ
  bidQty : ℤ
  bidprice : ℚ
  askQty : ℤ
  askPrice : ℚ
  underlyingValue : ℚ
deriving DecidableEq, Repr

/-- StrikeRecord from types.ts: one strike with optional CE and PE legs. -/
structure StrikeRecord where
  strikePrice : ℚ
  expiryDate : String
  CE : Option OptionData
  PE : Option OptionData
deriving DecidableEq, Repr

/-- AnalysisResult from types.ts. -/
structure AnalysisResult where
  pcr : ℚ
  pcrVol : ℚ
  maxPain : ℚ
  callOI : ℤ
  putOI : ℤ
  callChangeOI : ℤ
  putChangeOI : ℤ
  atmStrike : ℚ
  trend : Trend
  support : ℚ
  resistance : ℚ
deriving DecidableEq, Repr

/-- The expression record.CE?.openInterest || 0 from analysis.ts. -/
def ceOI (r : StrikeRecord) : ℤ := (r.CE.map (·.openInterest)).getD 0

/-- The expression record.PE?.openInterest || 0 from analysis.ts. -/
def peOI (r : StrikeRecord) : ℤ := (r.PE.map (·.openInterest)).getD 0

/-- The expression record.CE?.totalTradedVolume || 0 from analysis.ts. -/
def ceVol (r : StrikeRecord) : ℤ := (r.CE.map (·.totalTradedVolume)).getD 0

/-- The expression record.PE?.totalTradedVolume || 0 from analysis.ts. -/
def peVol (r : StrikeRecord) : ℤ := (r.PE.map (·.totalTradedVolume)).getD 0

/-- The expression record.CE?.changeinOpenInterest || 0 from analysis.ts. -/
def ceChangeOI (r : StrikeRecord) : ℤ := (r.CE.map (·.changeinOpenInterest)).getD 0

/-- The expression record.PE?.changeinOpenInterest || 0 from analysis.ts. -/
def peChangeOI (r : StrikeRecord) : ℤ := (r.PE.map (·.changeinOpenInterest)).getD 0

/-- Inner loop of calculateMaxPain (analysis.ts lines 17-33): the total
writer loss at a candidate expiration strike, accumulated over all
records of the input. -/
def totalLoss (data : List StrikeRecord) (expirationStrike : ℚ) : ℚ :=
  data.foldl
    (fun acc record =>
      let strike := record.strikePrice
      let acc :=
        if expirationStrike > strike then
          acc + (expirationStrike - strike) * (ceOI record : ℚ)
        else acc
      if strike > expirationStrike then
        acc + (strike - expirationStrike) * (peOI record : ℚ)
      else acc)
    0

/-- One step of the minimum search in calculateMaxPain (lines 35-38):
the running state is the pair (minTotalLoss, maxPainStrike).  The
source initialises minTotalLoss to Number.MAX_VALUE, a sentinel that
every actually computed loss compares below; the sentinel is embedded
as none (no candidate seen yet), so the first candidate is always
taken, exactly as in the source for any representable loss. -/
def scanStep (f : ℚ → ℚ) (st : Option ℚ × ℚ) (e : ℚ) : Option ℚ × ℚ :=
  let tl := f e
  match st.1 with
  | none => (some tl, e)
  | some m => if tl < m then (some tl, e) else st

/-- The full minimum scan of calculateMaxPain over the candidate
strikes, starting from (sentinel, maxPainStrike = 0). -/
def maxPainScan (f : ℚ → ℚ) (strikes : List ℚ) : Option ℚ × ℚ :=
  strikes.foldl (scanStep f) (none, 0)

/-- calculateMaxPain from analysis.ts (lines 7-42).  The source sorts
the strike prices ascending with Array.prototype.sort, a stable sort;
it is embedded as insertion sort, which computes the same list. -/
def calculateMaxPain (data : List StrikeRecord) : ℚ :=
  if data.isEmpty then 0
  else
    let strikes := (data.map (·.strikePrice)).insertionSort (· ≤ ·)
    (maxPainScan (totalLoss data) strikes).2

/-- getATMStrike from analysis.ts (lines 47-52): strikes.reduce keeping
the strike of minimal absolute distance to the spot price, with the
first element as the initial accumulator. -/
def getATMStrike (spotPrice : ℚ) (strikes : List ℚ) : ℚ :=
  match strikes with
  | [] => 0
  | s :: rest =>
    rest.foldl
      (fun prev curr => if |curr - spotPrice| < |prev - spotPrice| then curr else prev)
      s

/-- The mutable accumulators of the forEach loop in analyzeOptionChain
(analysis.ts lines 61-98), gathered into one state record. -/
structure ChainAcc where
  totalCallOI : ℤ
  totalPutOI : ℤ
  totalCallVol : ℤ
  totalPutVol : ℤ
  totalCallChangeOI : ℤ
  totalPutChangeOI : ℤ
  maxCallOI : ℤ
  maxPutOI : ℤ
  resistance : ℚ
  support : ℚ
deriving DecidableEq, Repr

/-- One iteration of the forEach loop of analyzeOptionChain (lines
75-98): add the record to the six totals, then update the running
maxima for resistance (Call OI) and support (Put OI). -/
def chainStep (acc : ChainAcc) (record : StrikeRecord) : ChainAcc :=
  let a1 : ChainAcc :=
    { acc with
      totalCallOI := acc.totalCallOI + ceOI record
      totalPutOI := acc.totalPutOI + peOI record
      totalCallVol := acc.totalCallVol + ceVol record
      totalPutVol := acc.totalPutVol + peVol record
      totalCallChangeOI := acc.totalCallChangeOI + ceChangeOI record
      totalPutChangeOI := acc.totalPutChangeOI + peChangeOI record }
  let a2 : ChainAcc :=
    if ceOI record > a1.maxCallOI then
      { a1 with maxCallOI := ceOI record, resistance := record.strikePrice }
    else a1
  if peOI record > a2.maxPutOI then
    { a2 with maxPutOI := peOI record, support := record.strikePrice }
  else a2

/-- Number(x.toFixed(2)) on a nonnegative exact value: round to the
nearest multiple of 1/100, ties away from zero (for the ECMA toFixed
tie rule, pick the larger candidate integer). -/
def round2 (q : ℚ) : ℚ := (⌊q * 100 + 1 / 2⌋ : ℚ) / 100

/-- analyzeOptionChain from analysis.ts (lines 57-125). -/
def analyzeOptionChain (data : List StrikeRecord) (underlyingValue : ℚ) : AnalysisResult :=
  let validData := data.filter (fun d => d.CE.isSome && d.PE.isSome)
  let acc := validData.foldl chainStep ⟨0, 0, 0, 0, 0, 0, 0, 0, 0, 0⟩
  let pcr :=
    if acc.totalCallOI = 0 then 0
    else round2 ((acc.totalPutOI : ℚ) / (acc.totalCallOI : ℚ))
  let pcrVol :=
    if acc.totalCallVol = 0 then 0
    else round2 ((acc.totalPutVol : ℚ) / (acc.totalCallVol : ℚ))
  let maxPain := calculateMaxPain validData
  let atmStrike := getATMStrike underlyingValue (validData.map (·.strikePrice))
  let trend : Trend :=
    if pcr > 1.2 then .Bullish
    else if pcr < 0.6 then .Bearish
    else if acc.totalPutChangeOI > acc.totalCallChangeOI then .Bullish
    else if acc.totalCallChangeOI > acc.totalPutChangeOI then .Bearish
    else .Neutral
  { pcr := pcr
    pcrVol := pcrVol
    maxPain := maxPain
    callOI := acc.totalCallOI
    putOI := acc.totalPutOI
    callChangeOI := acc.totalCallChangeOI
    putChangeOI := acc.totalPutChangeOI
    atmStrike := atmStrike
    trend := trend
    support := acc.support
    resistance := acc.resistance }

/-- Snapshot from types.ts: the persisted time-series summary unit. -/
structure Snapshot where
  id : String
  timestamp : String
  underlyingValue : ℚ
  pcr : ℚ
  maxPain : ℚ
  ceTotalOI : ℤ
  peTotalOI : ℤ
deriving DecidableEq, Repr

/-- The descending-by-parsed-timestamp order used by the comparator
(a, b) => new Date(b.timestamp).getTime() - new Date(a.timestamp).getTime()
in both store operations of dataService.ts: a may come before b
exactly when the comparator is nonpositive. -/
def tsDesc (parse : String → ℤ) (a b : Snapshot) : Prop :=
  parse b.timestamp ≤ parse a.timestamp

instance (parse : String → ℤ) : DecidableRel (tsDesc parse) :=
  fun a b => inferInstanceAs (Decidable (parse b.timestamp ≤ parse a.timestamp))

/-- The localStorage update of saveSnapshot (dataService.ts lines
22-27): prepend the new snapshot, stable-sort descending by parsed
timestamp (Array.prototype.sort is stable; embedded as insertion
sort, which computes the same list), keep the first 100.  The
function parse abstracts the JS expression new Date(t).getTime(); the
stored list is passed and returned explicitly in place of the
localStorage collaborator. -/
def saveSnapshot (parse : String → ℤ) (snapshot : Snapshot)
    (snapshots : List Snapshot) : List Snapshot :=
  ((snapshot :: snapshots).insertionSort (tsDesc parse)).take 100

/-- Recursion core of the duplicate filter of saveBackfilledSnapshots
(dataService.ts line 45), carrying the timestamps already seen to the
left of the current position. -/
def dedupSeen (seen : List String) : List Snapshot → List Snapshot
  | [] => []
  | v :: rest =>
    if v.timestamp ∈ seen then dedupSeen seen rest
    else v :: dedupSeen (v.timestamp :: seen) rest

/-- The duplicate filter of saveBackfilledSnapshots (dataService.ts
line 45): combined.filter((v, i, a) => a.findIndex(t => t.timestamp
=== v.timestamp) === i), i.e. keep exactly the first occurrence of
each exact timestamp string. -/
def dedupByTimestamp (l : List Snapshot) : List Snapshot := dedupSeen [] l

/-- The localStorage update of saveBackfilledSnapshots (dataService.ts
lines 33-52): concatenate new before existing, stable-sort descending
by parsed timestamp, keep the first occurrence per exact timestamp,
truncate to 200. -/
def saveBackfilledSnapshots (parse : String → ℤ) (snapshots existingSnapshots : List Snapshot) :
    List Snapshot :=
  let combined := snapshots ++ existingSnapshots
  let sorted := combined.insertionSort (tsDesc parse)
  let unique := dedupByTimestamp sorted
  unique.take 200

/-- getSnapshots (dataService.ts lines 54-61): list() returns the
stored collection as is. -/
def getSnapshots (stored : List Snapshot) : List Snapshot := stored

/-- The per-strike raw fields of one oiData entry consumed by
fetchTrendlyneSnapshot (trendlyne.ts lines 166-216).  In the source
each field is a string parsed with parseInt(x || brace-quote-0) or
parseFloat; the embedding holds the already-parsed values, with the
default 0 applied for absent fields. -/
structure RawStrikeData where
  callOi : ℤ
  callOiChange : ℤ
  callVol : ℤ
  callLtp : ℚ
  putOi : ℤ
  putOiChange : ℤ
  putVol : ℤ
  putLtp : ℚ
deriving DecidableEq, Repr

/-- The body of a Trendlyne live-oi-data response as consumed by
fetchTrendlyneSnapshot (trendlyne.ts lines 143-164): oiData is the
mapping from strike key (already parsed by parseFloat) to raw
per-strike data, defaulted to the empty mapping when absent; lp is
the underlying last price from body.inputData or body.stockData,
already parsed, none when absent from both. -/
structure RawBody where
  oiData : List (ℚ × RawStrikeData)
  lp : Option ℚ
  tradingDate : String
deriving DecidableEq, Repr

/-- The records part of NSEResponse from types.ts. -/
structure NSERecords where
  expiryDates : List String
  data : List StrikeRecord
  timestamp : String
  underlyingValue : ℚ
  strikePrices : List ℚ
deriving DecidableEq, Repr

/-- The CE / PE totals of the filtered part of NSEResponse. -/
structure FilteredTotals where
  totOI : ℚ
  totVol : ℚ
deriving DecidableEq, Repr

/-- The filtered part of NSEResponse from types.ts. -/
structure NSEFiltered where
  data : List StrikeRecord
  CE : FilteredTotals
  PE : FilteredTotals
deriving DecidableEq, Repr

/-- NSEResponse from types.ts. -/
structure NSEResponse where
  records : NSERecords
  filtered : NSEFiltered
deriving DecidableEq, Repr

/-- The CE leg built for one oiData entry (trendlyne.ts lines
173-193). -/
def mkCELeg (strikePrice : ℚ) (expiryDate symbol : String) (underlyingValue : ℚ)
    (s : RawStrikeData) : OptionData :=
  { strikePrice := strikePrice
    expiryDate := expiryDate
    underlying := symbol
    identifier := "CE" ++ toString strikePrice
    openInterest := s.callOi
    changeinOpenInterest := s.callOiChange
    pchangeinOpenInterest := 0
    totalTradedVolume := s.callVol
    impliedVolatility := 0
    lastPrice := s.callLtp
    change := 0
    pChange := 0
    totalBuyQuantity := 0
    totalSellQuantity := 0
    bidQty := 0
    bidprice := 0
    askQty := 0
    askPrice := 0
    underlyingValue := underlyingValue }

/-- The PE leg built for one oiData entry (trendlyne.ts lines
194-214). -/
def mkPELeg (strikePrice : ℚ) (expiryDate symbol : String) (underlyingValue : ℚ)
    (s : RawStrikeData) : OptionData :=
  { strikePrice := strikePrice
    expiryDate := expiryDate
    underlying := symbol
    identifier := "PE" ++ toString strikePrice
    openInterest := s.putOi
    changeinOpenInterest := s.putOiChange
    pchangeinOpenInterest := 0
    totalTradedVolume := s.putVol
    impliedVolatility := 0
    lastPrice := s.putLtp
    change := 0
    pChange := 0
    totalBuyQuantity := 0
    totalSellQuantity := 0
    bidQty := 0
    bidprice := 0
    askQty := 0
    askPrice := 0
    underlyingValue := underlyingValue }

/-- The snapshot parser inside fetchTrendlyneSnapshot (trendlyne.ts
lines 143-231), starting from the json body: fail (return null /
none, the MalformedPayload outcome) when the body is absent, or when
the parsed underlying price is 0 and the strike mapping is empty;
otherwise build one StrikeRecord per oiData entry, sort them
ascending by strike in place, and assemble the NSEResponse.  The
transport layer (fetch, HTTP status, head.status check) upstream of
the body is outside this embedding. -/
def fetchTrendlyneSnapshot (expiryDate timestamp symbol : String)
    (body : Option RawBody) : Option NSEResponse :=
  match body with
  | none => none
  | some b =>
    let oiData := b.oiData
    let underlyingValue := b.lp.getD 0
    let tradingDate := b.tradingDate
    if underlyingValue = 0 ∧ oiData = [] then none
    else
      let strikes : List StrikeRecord := oiData.map (fun kv =>
        { strikePrice := kv.1
          expiryDate := expiryDate
          CE := some (mkCELeg kv.1 expiryDate symbol underlyingValue kv.2)
          PE := some (mkPELeg kv.1 expiryDate symbol underlyingValue kv.2) })
      -- strikes.sort((a, b) => a.strikePrice - b.strikePrice) mutates
      -- the array in place, so every later reference sees the sorted
      -- order.
      let sortedStrikes := strikes.insertionSort
        (fun a b => a.strikePrice ≤ b.strikePrice)
      some
        { records :=
            { expiryDates := [expiryDate]
              data := sortedStrikes
              timestamp := tradingDate ++ " " ++ timestamp ++ ":00"
              underlyingValue := underlyingValue
              strikePrices := sortedStrikes.map (·.strikePrice) }
          filtered :=
            { data := sortedStrikes
              CE := ⟨0, 0⟩
              PE := ⟨0, 0⟩ } }

/-- The JS expression n.toString().padStart(2, "0") for a natural
number. -/
def pad2 (n : ℕ) : String :=
  if (toString n).length < 2 then "0" ++ toString n else toString n

/-- Formatting of one loop iteration of generateTimeIntervals
(trendlyne.ts lines 109-111): hours (wrapping at 24 as Date.getHours
does) and minutes, both zero-padded, joined by a colon.  The time is
carried as minutes since midnight of the base day. -/
def formatHHMM (totalMinutes : ℕ) : String :=
  pad2 (totalMinutes / 60 % 24) ++ ":" ++ pad2 (totalMinutes % 60)

/-- The while loop of generateTimeIntervals (trendlyne.ts lines
108-113): while current <= end, push the formatted label and advance
by intervalMinutes.  For intervalMinutes = 0 the source loop never
terminates; the embedding makes that case return the empty list, and
every claim constrains the step to be positive. -/
def genTimesLoop (intervalMinutes : ℕ) (current endMinutes : ℕ) : List String :=
  if _h : current ≤ endMinutes ∧ 0 < intervalMinutes then
    formatHHMM current :: genTimesLoop intervalMinutes (current + intervalMinutes) endMinutes
  else []
termination_by endMinutes + 1 - current
decreasing_by omega

/-- The JS expression Number(s) for a string of decimal digits, as
produced by splitting a well-formed HH:MM label. -/
def digitsToNat (cs : List Char) : ℕ :=
  cs.foldl (fun acc c => acc * 10 + (c.toNat - 48)) 0

/-- The JS expression s.split(":").map(Number) for an HH:MM label,
returning (hours, minutes): everything before the first colon and
everything after it, each read as a decimal number. -/
def parseHHMM (s : String) : ℕ × ℕ :=
  let cs := s.toList
  (digitsToNat (cs.takeWhile (· ≠ ':')), digitsToNat ((cs.dropWhile (· ≠ ':')).drop 1))

/-- generateTimeIntervals (trendlyne.ts lines 97-115): parse the two
HH:MM strings with split(colon).map(Number) and run the loop over
minutes since midnight. -/
def generateTimeIntervals (startTime endTime : String) (intervalMinutes : ℕ) : List String :=
  let s := parseHHMM startTime
  let e := parseHHMM endTime
  genTimesLoop intervalMinutes (s.1 * 60 + s.2) (e.1 * 60 + e.2)

/-! ### Specification-side definitions

These definitions restate, independently of the accumulator loops of
the source, the quantities the specification talks about; the theorems
below relate the source embedding to them. -/

/-- The records of a chain with both legs present: the filter
data.filter(d => d.CE && d.PE) applied by analyzeOptionChain. -/
def validRecords (data : List StrikeRecord) : List StrikeRecord :=
  data.filter (fun d => d.CE.isSome && d.PE.isSome)

/-- Total Call open interest of a list of records. -/
def sumCallOI (l : List StrikeRecord) : ℤ := (l.map ceOI).sum

/-- Total Put open interest of a list of records. -/
def sumPutOI (l : List StrikeRecord) : ℤ := (l.map peOI).sum

/-- Total Call change in open interest of a list of records. -/
def sumCallChangeOI (l : List StrikeRecord) : ℤ := (l.map ceChangeOI).sum

/-- Total Put change in open interest of a list of records. -/
def sumPutChangeOI (l : List StrikeRecord) : ℤ := (l.map peChangeOI).sum

/-- One step of the running-maximum selection shared by the support
and resistance computations: replace the running pair (best value,
best strike) when the value of the record strictly exceeds it. -/
def maxSel (f : StrikeRecord → ℤ) (g : StrikeRecord → ℚ)
    (p : ℤ × ℚ) (r : StrikeRecord) : ℤ × ℚ :=
  if f r > p.1 then (f r, g r) else p

/-! ### Concrete sample data for scenarios and witnesses -/

/-- Sample option leg for concrete scenario inputs: the given open
interest, change in open interest and traded volume, every other
field zero. -/
def legOf (oi chg vol : ℤ) : OptionData :=
  ⟨0, "e", "NIFTY", "id", oi, chg, 0, vol, 0, 0, 0, 0, 0, 0, 0, 0, 0, 0, 0⟩

/-- Concrete two-strike chain exercising the Max Pain search. -/
def mpWitnessData : List StrikeRecord :=
  [⟨100, "e", some (legOf 10 0 0), some (legOf 0 0 0)⟩,
   ⟨200, "e", some (legOf 0 0 0), some (legOf 5 0 0)⟩]

/-- The support / resistance / ATM scenario chain of the
specification: strikes 17900 (call OI 1000, put OI 500) and 18000
(call OI 500, put OI 1500). -/
def srData : List StrikeRecord :=
  [⟨17900, "e", some (legOf 1000 0 0), some (legOf 500 0 0)⟩,
   ⟨18000, "e", some (legOf 500 0 0), some (legOf 1500 0 0)⟩]

/-- A one-strike chain whose put and call OI are all zero. -/
def srZeroData : List StrikeRecord :=
  [⟨100, "e", some (legOf 0 0 0), some (legOf 0 0 0)⟩]

/-- The PCR scenario chain of the specification: total call OI
1500000, total put OI 1200000. -/
def pcrScenarioData : List StrikeRecord :=
  [⟨22000, "e", some (legOf 1500000 0 0), some (legOf 1200000 0 0)⟩]

/-- A date-parsing function for concrete store runs; the store claims
hold for every parse function, so any concrete one will do. -/
def constParse : String → ℤ := fun _ => 0

/-- First of two snapshots sharing one exact timestamp string. -/
def dupSnapOne : Snapshot := ⟨"1", "2024-01-02T10:00:00", 0, 0, 0, 0, 0⟩

/-- Second of two snapshots sharing one exact timestamp string. -/
def dupSnapTwo : Snapshot := ⟨"2", "2024-01-02T10:00:00", 0, 0, 0, 0, 0⟩

/-- A list of 101 snapshots with pairwise distinct timestamp strings. -/
def rangeSnapshots : List Snapshot :=
  (List.range 101).map (fun i => ⟨"", toString i, 0, 0, 0, 0, 0⟩)

/-- A raw body with an empty strike mapping and underlying price
22000. -/
def emptyBodyPriced : RawBody := ⟨[], some 22000, "2024-01-20"⟩

/-- A raw body with an empty strike mapping and underlying price 0. -/
def emptyBodyZero : RawBody := ⟨[], some 0, "2024-01-20"⟩

/-! ### The minimum scan of calculateMaxPain selects the first minimum -/

theorem scanStep_some (f : ℚ → ℚ) (m e x : ℚ) :
    scanStep f (some m, e) x = if f x < m then (some (f x), x) else (some m, e) := rfl

/-- Running the minimum scan from an already-selected candidate
(m, e): either no later candidate improves on m and the state is
unchanged, or the scan returns the first candidate of minimal loss,
every earlier candidate being strictly worse or at least m, every
later one no better. -/
theorem maxPainScan_go (f : ℚ → ℚ) :
    ∀ (l : List ℚ) (m e : ℚ),
      (l.foldl (scanStep f) (some m, e) = (some m, e) ∧ ∀ x ∈ l, m ≤ f x)
      ∨ (∃ l₁ x l₂, l = l₁ ++ x :: l₂ ∧
          l.foldl (scanStep f) (some m, e) = (some (f x), x) ∧
          f x < m ∧ (∀ y ∈ l₁, f x < f y ∨ m ≤ f y) ∧ (∀ y ∈ l₂, f x ≤ f y))
  | [], m, e => .inl ⟨rfl, by simp⟩
  | a :: t, m, e => by
    rw [List.foldl_cons, scanStep_some]
    by_cases hc : f a < m
    · rw [if_pos hc]
      rcases maxPainScan_go f t (f a) a with ⟨heq, hall⟩ | ⟨l₁, x, l₂, hsplit, hres, hlt, h₁, h₂⟩
      · exact .inr ⟨[], a, t, rfl, heq, hc, by simp, hall⟩
      · refine .inr ⟨a :: l₁, x, l₂, by rw [hsplit, List.cons_append], hres, lt_trans hlt hc, ?_, h₂⟩
        intro y hy
        rcases List.mem_cons.1 hy with rfl | hy2
        · exact .inl hlt
        · rcases h₁ y hy2 with h | h
          · exact .inl h
          · exact .inl (lt_of_lt_of_le hlt h)
    · rw [if_neg hc]
      rcases maxPainScan_go f t m e with ⟨heq, hall⟩ | ⟨l₁, x, l₂, hsplit, hres, hlt, h₁, h₂⟩
      · refine .inl ⟨heq, ?_⟩
        intro y hy
        rcases List.mem_cons.1 hy with rfl | hy2
        · exact not_lt.1 hc
        · exact hall y hy2
      · refine .inr ⟨a :: l₁, x, l₂, by rw [hsplit, List.cons_append], hres, hlt, ?_, h₂⟩
        intro y hy
        rcases List.mem_cons.1 hy with rfl | hy2
        · exact .inr (not_lt.1 hc)
        · exact h₁ y hy2

/-- Running the maximum scan of the support / resistance computation
from the running pair (m, s): either no record strictly exceeds m and
the state is unchanged, or the scan returns the pair of the first
record of maximal value, every earlier record being strictly smaller
or at most m, every later one no greater. -/
theorem maxSel_go (f : StrikeRecord → ℤ) (g : StrikeRecord → ℚ) :
    ∀ (l : List StrikeRecord) (m : ℤ) (s : ℚ),
      (l.foldl (maxSel f g) (m, s) = (m, s) ∧ ∀ x ∈ l, f x ≤ m)
      ∨ (∃ l₁ x l₂, l = l₁ ++ x :: l₂ ∧
          l.foldl (maxSel f g) (m, s) = (f x, g x) ∧
          m < f x ∧ (∀ y ∈ l₁, f y < f x ∨ f y ≤ m) ∧ (∀ y ∈ l₂, f y ≤ f x))
  | [], m, s => .inl ⟨rfl, by simp⟩
  | a :: t, m, s => by
    rw [List.foldl_cons]
    by_cases hc : f a > m
    · rw [show maxSel f g (m, s) a = (f a, g a) from if_pos hc]
      rcases maxSel_go f g t (f a) (g a) with ⟨heq, hall⟩ | ⟨l₁, x, l₂, hsplit, hres, hlt, h₁, h₂⟩
      · exact .inr ⟨[], a, t, rfl, heq, hc, by simp, hall⟩
      · refine .inr ⟨a :: l₁, x, l₂, by rw [hsplit, List.cons_append], hres, lt_trans hc hlt, ?_, h₂⟩
        intro y hy
        rcases List.mem_cons.1 hy with rfl | hy2
        · exact .inl hlt
        · rcases h₁ y hy2 with h | h
          · exact .inl h
          · exact .inl (lt_of_le_of_lt h hlt)
    · rw [show maxSel f g (m, s) a = (m, s) from if_neg hc]
      rcases maxSel_go f g t m s with ⟨heq, hall⟩ | ⟨l₁, x, l₂, hsplit, hres, hlt, h₁, h₂⟩
      · refine .inl ⟨heq, ?_⟩
        intro y hy
        rcases List.mem_cons.1 hy with rfl | hy2
        · exact not_lt.1 hc
        · exact hall y hy2
      · refine .inr ⟨a :: l₁, x, l₂, by rw [hsplit, List.cons_append], hres, hlt, ?_, h₂⟩
        intro y hy
        rcases List.mem_cons.1 hy with rfl | hy2
        · exact .inr (not_lt.1 hc)
        · exact h₁ y hy2

/-! ### Projections of the analyzeOptionChain accumulator loop -/

theorem chainStep_totalCallOI (acc : ChainAcc) (r : StrikeRecord) :
    (chainStep acc r).totalCallOI = acc.totalCallOI + ceOI r := by
  unfold chainStep
  dsimp only
  split <;> split <;> rfl

theorem chainStep_totalPutOI (acc : ChainAcc) (r : StrikeRecord) :
    (chainStep acc r).totalPutOI = acc.totalPutOI + peOI r := by
  unfold chainStep
  dsimp only
  split <;> split <;> rfl

theorem chainStep_totalCallChangeOI (acc : ChainAcc) (r : StrikeRecord) :
    (chainStep acc r).totalCallChangeOI = acc.totalCallChangeOI + ceChangeOI r := by
  unfold chainStep
  dsimp only
  split <;> split <;> rfl

theorem chainStep_totalPutChangeOI (acc : ChainAcc) (r : StrikeRecord) :
    (chainStep acc r).totalPutChangeOI = acc.totalPutChangeOI + peChangeOI r := by
  unfold chainStep
  dsimp only
  split <;> split <;> rfl

theorem chainStep_putPair (acc : ChainAcc) (r : StrikeRecord) :
    ((chainStep acc r).maxPutOI, (chainStep acc r).support)
      = maxSel peOI (·.strikePrice) (acc.maxPutOI, acc.support) r := by
  unfold chainStep maxSel
  dsimp only
  split <;> split <;> rfl

theorem chainStep_callPair (acc : ChainAcc) (r : StrikeRecord) :
    ((chainStep acc r).maxCallOI, (chainStep acc r).resistance)
      = maxSel ceOI (·.strikePrice) (acc.maxCallOI, acc.resistance) r := by
  unfold chainStep maxSel
  dsimp only
  split <;> split <;> rfl

theorem foldl_chainStep_totalCallOI :
    ∀ (l : List StrikeRecord) (acc : ChainAcc),
      (l.foldl chainStep acc).totalCallOI = acc.totalCallOI + sumCallOI l
  | [], acc => by simp [sumCallOI]
  | r :: t, acc => by
    rw [List.foldl_cons, foldl_chainStep_totalCallOI t, chainStep_totalCallOI]
    simp [sumCallOI]
    ring

theorem foldl_chainStep_totalPutOI :
    ∀ (l : List StrikeRecord) (acc : ChainAcc),
      (l.foldl chainStep acc).totalPutOI = acc.totalPutOI + sumPutOI l
  | [], acc => by simp [sumPutOI]
  | r :: t, acc => by
    rw [List.foldl_cons, foldl_chainStep_totalPutOI t, chainStep_totalPutOI]
    simp [sumPutOI]
    ring

theorem foldl_chainStep_totalCallChangeOI :
    ∀ (l : List StrikeRecord) (acc : ChainAcc),
      (l.foldl chainStep acc).totalCallChangeOI = acc.totalCallChangeOI + sumCallChangeOI l
  | [], acc => by simp [sumCallChangeOI]
  | r :: t, acc => by
    rw [List.foldl_cons, foldl_chainStep_totalCallChangeOI t, chainStep_totalCallChangeOI]
    simp [sumCallChangeOI]
    ring

theorem foldl_chainStep_totalPutChangeOI :
    ∀ (l : List StrikeRecord) (acc : ChainAcc),
      (l.foldl chainStep acc).totalPutChangeOI = acc.totalPutChangeOI + sumPutChangeOI l
  | [], acc => by simp [sumPutChangeOI]
  | r :: t, acc => by
    rw [List.foldl_cons, foldl_chainStep_totalPutChangeOI t, chainStep_totalPutChangeOI]
    simp [sumPutChangeOI]
    ring

theorem foldl_chainStep_putPair :
    ∀ (l : List StrikeRecord) (acc : ChainAcc),
      ((l.foldl chainStep acc).maxPutOI, (l.foldl chainStep acc).support)
        = l.foldl (maxSel peOI (·.strikePrice)) (acc.maxPutOI, acc.support)
  | [], acc => rfl
  | r :: t, acc => by
    rw [List.foldl_cons, List.foldl_cons, foldl_chainStep_putPair t, chainStep_putPair]

theorem foldl_chainStep_callPair :
    ∀ (l : List StrikeRecord) (acc : ChainAcc),
      ((l.foldl chainStep acc).maxCallOI, (l.foldl chainStep acc).resistance)
        = l.foldl (maxSel ceOI (·.strikePrice)) (acc.maxCallOI, acc.resistance)
  | [], acc => rfl
  | r :: t, acc => by
    rw [List.foldl_cons, List.foldl_cons, foldl_chainStep_callPair t, chainStep_callPair]

/-! ### Field lemmas for analyzeOptionChain -/

theorem analyzeOptionChain_callOI (data : List StrikeRecord) (u : ℚ) :
    (analyzeOptionChain data u).callOI = sumCallOI (validRecords data) := by
  simp only [analyzeOptionChain, validRecords]
  rw [foldl_chainStep_totalCallOI]
  simp

theorem analyzeOptionChain_putOI (data : List StrikeRecord) (u : ℚ) :
    (analyzeOptionChain data u).putOI = sumPutOI (validRecords data) := by
  simp only [analyzeOptionChain, validRecords]
  rw [foldl_chainStep_totalPutOI]
  simp

theorem analyzeOptionChain_callChangeOI (data : List StrikeRecord) (u : ℚ) :
    (analyzeOptionChain data u).callChangeOI = sumCallChangeOI (validRecords data) := by
  simp only [analyzeOptionChain, validRecords]
  rw [foldl_chainStep_totalCallChangeOI]
  simp

theorem analyzeOptionChain_putChangeOI (data : List StrikeRecord) (u : ℚ) :
    (analyzeOptionChain data u).putChangeOI = sumPutChangeOI (validRecords data) := by
  simp only [analyzeOptionChain, validRecords]
  rw [foldl_chainStep_totalPutChangeOI]
  simp

theorem analyzeOptionChain_pcr (data : List StrikeRecord) (u : ℚ) :
    (analyzeOptionChain data u).pcr =
      (if sumCallOI (validRecords data) = 0 then 0
       else round2 ((sumPutOI (validRecords data) : ℚ) / (sumCallOI (validRecords data) : ℚ))) := by
  simp only [analyzeOptionChain, validRecords]
  rw [foldl_chainStep_totalCallOI, foldl_chainStep_totalPutOI]
  simp

theorem analyzeOptionChain_support (data : List StrikeRecord) (u : ℚ) :
    (analyzeOptionChain data u).support =
      ((validRecords data).foldl (maxSel peOI (·.strikePrice)) (0, 0)).2 := by
  simp only [analyzeOptionChain, validRecords]
  exact congrArg Prod.snd (foldl_chainStep_putPair _ ⟨0, 0, 0, 0, 0, 0, 0, 0, 0, 0⟩)

theorem analyzeOptionChain_resistance (data : List StrikeRecord) (u : ℚ) :
    (analyzeOptionChain data u).resistance =
      ((validRecords data).foldl (maxSel ceOI (·.strikePrice)) (0, 0)).2 := by
  simp only [analyzeOptionChain, validRecords]
  exact congrArg Prod.snd (foldl_chainStep_callPair _ ⟨0, 0, 0, 0, 0, 0, 0, 0, 0, 0⟩)

/-- C2: for a nonempty chain, calculateMaxPain returns a strike drawn
from the candidate list (the strike prices of the input sorted
ascending), minimizing the total writer loss, the first candidate in
ascending order winning ties; the candidate list is indeed an
ascending-sorted permutation of the strike prices of the input; for
the empty chain the result is 0. -/
theorem calculateMaxPain_spec :
    calculateMaxPain [] = 0 ∧
    (∀ data : List StrikeRecord,
      ((data.map (·.strikePrice)).insertionSort (· ≤ ·)).Sorted (· ≤ ·) ∧
      ((data.map (·.strikePrice)).insertionSort (· ≤ ·)).Perm (data.map (·.strikePrice))) ∧
    (∀ data : List StrikeRecord, data ≠ [] →
      ∃ l₁ l₂,
        (data.map (·.strikePrice)).insertionSort (· ≤ ·)
          = l₁ ++ calculateMaxPain data :: l₂ ∧
        (∀ s ∈ l₁, totalLoss data (calculateMaxPain data) < totalLoss data s) ∧
        (∀ s ∈ l₂, totalLoss data (calculateMaxPain data) ≤ totalLoss data s)) := by
  refine ⟨rfl, fun data => ⟨List.sorted_insertionSort _ _, List.perm_insertionSort _ _⟩, ?_⟩
  intro data hne
  have hie : data.isEmpty = false := by
    simpa [List.isEmpty_iff] using hne
  set f := totalLoss data with hf
  set strikes := (data.map (·.strikePrice)).insertionSort (· ≤ ·) with hstrikes
  have hlen : strikes.length = data.length := by
    rw [hstrikes, List.length_insertionSort, List.length_map]
  have hsne : strikes ≠ [] := by
    intro h
    apply hne
    have h2 := congrArg List.length h
    rw [hlen] at h2
    exact List.length_eq_zero.mp (by simpa using h2)
  obtain ⟨s₀, rest, hcons⟩ := List.exists_cons_of_ne_nil hsne
  have hcm : calculateMaxPain data = (List.foldl (scanStep f) (some (f s₀), s₀) rest).2 := by
    simp only [calculateMaxPain, hie, Bool.false_eq_true, if_false]
    rw [← hf, ← hstrikes, hcons, maxPainScan, List.foldl_cons]
    rfl
  rcases maxPainScan_go f rest (f s₀) s₀ with ⟨heq, hall⟩ | ⟨l₁, x, l₂, hsplit, hres, hlt, h₁, h₂⟩
  · have hcm2 : calculateMaxPain data = s₀ := by rw [hcm, heq]
    refine ⟨[], rest, ?_, by simp, ?_⟩
    · rw [hcm2, hcons, List.nil_append]
    · intro s hs
      rw [hcm2]
      exact hall s hs
  · have hcm2 : calculateMaxPain data = x := by rw [hcm, hres]
    refine ⟨s₀ :: l₁, l₂, ?_, ?_, ?_⟩
    · rw [hcm2, hcons, hsplit, List.cons_append]
    · intro s hs
      rw [hcm2]
      rcases List.mem_cons.1 hs with rfl | hs2
      · exact hlt
      · rcases h₁ s hs2 with h | h
        · exact h
        · exact lt_of_lt_of_le hlt h
    · intro s hs
      rw [hcm2]
      exact h₂ s hs

/-- Witness for C2 at the concrete two-strike chain. -/
theorem calculateMaxPain_spec_witness :
    mpWitnessData ≠ [] ∧
    ∃ l₁ l₂,
      (mpWitnessData.map (·.strikePrice)).insertionSort (· ≤ ·)
        = l₁ ++ calculateMaxPain mpWitnessData :: l₂ ∧
      (∀ s ∈ l₁, totalLoss mpWitnessData (calculateMaxPain mpWitnessData)
          < totalLoss mpWitnessData s) ∧
      (∀ s ∈ l₂, totalLoss mpWitnessData (calculateMaxPain mpWitnessData)
          ≤ totalLoss mpWitnessData s) :=
  ⟨by decide, calculateMaxPain_spec.2.2 mpWitnessData (by decide)⟩

/-- C3 counterexample: on the empty chain the analysis returns trend
Bearish, not Neutral, because pcr = 0 triggers the pcr < 0.6 branch
of the cascade. -/
theorem analyzeOptionChain_empty_trend_cex :
    (analyzeOptionChain [] 22000).trend = Trend.Bearish ∧
    ¬ ((analyzeOptionChain [] 22000).trend = Trend.Neutral) := by
  have h : analyzeOptionChain [] (22000 : ℚ) =
      { pcr := 0, pcrVol := 0, maxPain := 0, callOI := 0, putOI := 0,
        callChangeOI := 0, putChangeOI := 0, atmStrike := 0,
        trend := Trend.Bearish, support := 0, resistance := 0 } := by
    norm_num [analyzeOptionChain, calculateMaxPain, getATMStrike, round2]
  rw [h]
  exact ⟨rfl, by decide⟩

/-- C3 (amended): on the empty chain, for every underlying price, the
analysis never fails and returns pcr = 0, maxPain = 0, atmStrike = 0,
support = 0, resistance = 0 — and trend Bearish (the pcr < 0.6 branch
fires at pcr = 0), not Neutral. -/
theorem analyzeOptionChain_empty :
    ∀ u : ℚ, analyzeOptionChain [] u =
      { pcr := 0, pcrVol := 0, maxPain := 0, callOI := 0, putOI := 0,
        callChangeOI := 0, putChangeOI := 0, atmStrike := 0,
        trend := Trend.Bearish, support := 0, resistance := 0 } := by
  intro u
  norm_num [analyzeOptionChain, calculateMaxPain, getATMStrike, round2]

/-- C5: PCR(OI) is the total put OI over the total call OI of the
records with both legs present, rounded to two decimals, and 0
whenever the call total is 0; on the scenario chain with put total
1200000 and call total 1500000 it equals 0.80. -/
theorem pcr_spec :
    (∀ (data : List StrikeRecord) (u : ℚ),
      (analyzeOptionChain data u).pcr =
        (if sumCallOI (validRecords data) = 0 then 0
         else round2 ((sumPutOI (validRecords data) : ℚ) / (sumCallOI (validRecords data) : ℚ)))) ∧
    (analyzeOptionChain pcrScenarioData 22000).pcr = 0.80 := by
  refine ⟨analyzeOptionChain_pcr, ?_⟩
  norm_num [analyzeOptionChain, chainStep, ceOI, peOI, ceVol, peVol,
    ceChangeOI, peChangeOI, pcrScenarioData, legOf, round2]

/-- C6: the trend is decided by exactly the five-branch cascade, in
order, first match winning: pcr above 1.2 gives Bullish, else pcr
below 0.6 gives Bearish, else larger total put change-in-OI gives
Bullish, else larger total call change-in-OI gives Bearish, else
Neutral. -/
theorem trend_spec :
    ∀ (data : List StrikeRecord) (u : ℚ),
      (analyzeOptionChain data u).trend =
        (if (analyzeOptionChain data u).pcr > 1.2 then Trend.Bullish
         else if (analyzeOptionChain data u).pcr < 0.6 then Trend.Bearish
         else if (analyzeOptionChain data u).putChangeOI
             > (analyzeOptionChain data u).callChangeOI then Trend.Bullish
         else if (analyzeOptionChain data u).callChangeOI
             > (analyzeOptionChain data u).putChangeOI then Trend.Bearish
         else Trend.Neutral) := by
  intro data u
  rfl

/-- C10: records lacking a call leg or a put leg contribute to no
output field: the analysis of a chain equals the analysis of the
chain restricted to its records with both legs present. -/
theorem analyzeOptionChain_filter_invariant :
    ∀ (data : List StrikeRecord) (u : ℚ),
      analyzeOptionChain data u = analyzeOptionChain (validRecords data) u := by
  intro data u
  have h : (data.filter (fun d => d.CE.isSome && d.PE.isSome)).filter
      (fun d => d.CE.isSome && d.PE.isSome)
      = data.filter (fun d => d.CE.isSome && d.PE.isSome) := by
    simp [List.filter_filter]
  simp only [analyzeOptionChain, validRecords, h]

/-- C8 counterexample: on a one-strike chain whose put OI is zero
everywhere, the unique strike 100 attains the maximum put OI, yet the
analysis reports support 0 (the loop only moves support on a strictly
positive comparison against the initial maximum 0), so support is not
the strike with the maximum put OI. -/
theorem support_zero_cex :
    (analyzeOptionChain srZeroData 100).support = 0 ∧
    ¬ ((analyzeOptionChain srZeroData 100).support = 100) ∧
    srZeroData.map (·.strikePrice) = [100] := by
  refine ⟨?_, ?_, by norm_num [srZeroData]⟩ <;>
    norm_num [analyzeOptionChain, chainStep, ceOI, peOI, ceVol, peVol,
      ceChangeOI, peChangeOI, srZeroData, legOf]

/-- C8 (amended): support is the strike of the first record attaining
the maximum put OI among the both-legged records, provided some
record has positive put OI; when no record has positive put OI,
support stays 0.  Resistance is the analogous maximum over call OI.
The iteration order is the input order of the records, which is
ascending strike whenever the chain is ascending-sorted (as the
parser guarantees), so ties go to the lower strike.  On the scenario
chain the analysis returns ATM 18000, support 18000, resistance
17900. -/
theorem support_resistance_spec :
    (∀ (data : List StrikeRecord) (u : ℚ),
      ((∀ x ∈ validRecords data, peOI x ≤ 0) ∧ (analyzeOptionChain data u).support = 0)
      ∨ (∃ l₁ x l₂, validRecords data = l₁ ++ x :: l₂ ∧
          (analyzeOptionChain data u).support = x.strikePrice ∧ 0 < peOI x ∧
          (∀ y ∈ l₁, peOI y < peOI x) ∧ (∀ y ∈ l₂, peOI y ≤ peOI x))) ∧
    (∀ (data : List StrikeRecord) (u : ℚ),
      ((∀ x ∈ validRecords data, ceOI x ≤ 0) ∧ (analyzeOptionChain data u).resistance = 0)
      ∨ (∃ l₁ x l₂, validRecords data = l₁ ++ x :: l₂ ∧
          (analyzeOptionChain data u).resistance = x.strikePrice ∧ 0 < ceOI x ∧
          (∀ y ∈ l₁, ceOI y < ceOI x) ∧ (∀ y ∈ l₂, ceOI y ≤ ceOI x))) ∧
    (analyzeOptionChain srData 17980).atmStrike = 18000 ∧
    (analyzeOptionChain srData 17980).support = 18000 ∧
    (analyzeOptionChain srData 17980).resistance = 17900 := by
  refine ⟨?_, ?_, ?_, ?_, ?_⟩
  · intro data u
    have hS := analyzeOptionChain_support data u
    rcases maxSel_go peOI (·.strikePrice) (validRecords data) 0 0 with
      ⟨heq, hall⟩ | ⟨l₁, x, l₂, hsplit, hres, hlt, h₁, h₂⟩
    · exact .inl ⟨hall, by rw [hS, heq]⟩
    · refine .inr ⟨l₁, x, l₂, hsplit, by rw [hS, hres], hlt, ?_, h₂⟩
      intro y hy
      rcases h₁ y hy with h | h
      · exact h
      · exact lt_of_le_of_lt h hlt
  · intro data u
    have hR := analyzeOptionChain_resistance data u
    rcases maxSel_go ceOI (·.strikePrice) (validRecords data) 0 0 with
      ⟨heq, hall⟩ | ⟨l₁, x, l₂, hsplit, hres, hlt, h₁, h₂⟩
    · exact .inl ⟨hall, by rw [hR, heq]⟩
    · refine .inr ⟨l₁, x, l₂, hsplit, by rw [hR, hres], hlt, ?_, h₂⟩
      intro y hy
      rcases h₁ y hy with h | h
      · exact h
      · exact lt_of_le_of_lt h hlt
  all_goals
    norm_num [analyzeOptionChain, chainStep, getATMStrike, ceOI, peOI, ceVol, peVol,
      ceChangeOI, peChangeOI, srData, legOf]

/-- The timestamps kept by dedupSeen are pairwise distinct and avoid
the already-seen set. -/
theorem dedupSeen_nodup (l : List Snapshot) :
    ∀ seen : List String,
      (((dedupSeen seen l).map (·.timestamp)).Nodup) ∧
      (∀ t ∈ (dedupSeen seen l).map (·.timestamp), t ∉ seen) := by
  induction l with
  | nil => exact fun seen => ⟨List.nodup_nil, by simp [dedupSeen]⟩
  | cons v rest ih =>
    intro seen
    by_cases h : v.timestamp ∈ seen
    · simp only [dedupSeen, if_pos h]
      exact ih seen
    · simp only [dedupSeen, if_neg h, List.map_cons]
      obtain ⟨ih1, ih2⟩ := ih (v.timestamp :: seen)
      refine ⟨List.nodup_cons.2 ⟨?_, ih1⟩, ?_⟩
      · intro hmem
        exact ih2 _ hmem (List.mem_cons_self _ _)
      · intro t ht
        rcases List.mem_cons.1 ht with rfl | ht2
        · exact h
        · intro hseen
          exact ih2 t ht2 (List.mem_cons_of_mem _ hseen)

/-- C1 counterexample: saveSnapshot applies no deduplication, so
recording two snapshots carrying the same exact timestamp string
leaves two entries for that timestamp in the stored list, not one. -/
theorem saveSnapshot_duplicate_cex :
    ((saveSnapshot constParse dupSnapTwo (saveSnapshot constParse dupSnapOne [])).filter
        (fun t => t.timestamp == "2024-01-02T10:00:00")).length = 2 ∧
    ¬ (((saveSnapshot constParse dupSnapTwo (saveSnapshot constParse dupSnapOne [])).filter
        (fun t => t.timestamp == "2024-01-02T10:00:00")).length = 1) := by
  decide

/-- C1 (amended): the dedup step belongs to the batch operation only:
after saveBackfilledSnapshots no two stored entries share an exact
timestamp string, for every date-parsing function and every inputs;
the single-record operation saveSnapshot performs no deduplication
(it only sorts and truncates), as the counterexample shows. -/
theorem saveBackfilledSnapshots_nodup :
    ∀ (parse : String → ℤ) (snapshots existing : List Snapshot),
      ((saveBackfilledSnapshots parse snapshots existing).map (·.timestamp)).Nodup := by
  intro parse snapshots existing
  simp only [saveBackfilledSnapshots, dedupByTimestamp]
  refine List.Nodup.sublist ?_
    (dedupSeen_nodup ((snapshots ++ existing).insertionSort (tsDesc parse)) []).1
  exact (List.take_sublist _ _).map _

theorem saveSnapshot_length (parse : String → ℤ) (s : Snapshot) (acc : List Snapshot) :
    (saveSnapshot parse s acc).length = min 100 (acc.length + 1) := by
  simp [saveSnapshot, List.length_take, List.orderedInsert_length, List.length_insertionSort]

theorem foldl_save_length (parse : String → ℤ) :
    ∀ (ss acc : List Snapshot), acc.length ≤ 100 →
      (ss.foldl (fun stored s => saveSnapshot parse s stored) acc).length
        = min 100 (acc.length + ss.length)
  | [], acc, h => by
    simp
    omega
  | s :: t, acc, h => by
    rw [List.foldl_cons,
      foldl_save_length parse t _ (by rw [saveSnapshot_length]; omega),
      saveSnapshot_length]
    simp [List.length_cons]
    omega

theorem saveSnapshot_pairwise (parse : String → ℤ) (s : Snapshot) (acc : List Snapshot) :
    (saveSnapshot parse s acc).Pairwise (tsDesc parse) := by
  haveI : IsTotal Snapshot (tsDesc parse) := ⟨fun a b => Int.le_total _ _⟩
  haveI : IsTrans Snapshot (tsDesc parse) := ⟨fun a b c hab hbc => le_trans hbc hab⟩
  exact List.Pairwise.sublist (List.take_sublist _ _)
    (List.sorted_insertionSort (tsDesc parse) (s :: acc))

theorem foldl_save_ends (parse : String → ℤ) :
    ∀ (ss : List Snapshot) (acc : List Snapshot), ss ≠ [] →
      ∃ s acc2, ss.foldl (fun stored s => saveSnapshot parse s stored) acc
        = saveSnapshot parse s acc2
  | [], _, h => absurd rfl h
  | [s], acc, _ => ⟨s, acc, rfl⟩
  | s :: s2 :: t, acc, _ => by
    rw [List.foldl_cons]
    exact foldl_save_ends parse (s2 :: t) _ (by simp)

theorem dedupSeen_sublist :
    ∀ (l : List Snapshot) (seen : List String), (dedupSeen seen l).Sublist l
  | [], _ => List.Sublist.refl []
  | v :: rest, seen => by
    by_cases h : v.timestamp ∈ seen
    · simp only [dedupSeen, if_pos h]
      exact List.Sublist.cons v (dedupSeen_sublist rest seen)
    · simp only [dedupSeen, if_neg h]
      exact List.Sublist.cons₂ v (dedupSeen_sublist rest (v.timestamp :: seen))

/-- C4: starting from an empty store, after more than 100 single
recordings with pairwise distinct timestamps the store holds exactly
100 entries, sorted most-recent-first (descending by parsed
timestamp); the batch operation instead truncates the merged,
dedup-ed collection to at most 200 entries, retaining the most recent
ones: its result is the 200-entry truncation of the
descending-sorted deduplicated merge, it is itself ordered
most-recent-first, and every retained entry is at least as recent as
every entry the truncation discards. -/
theorem retention_spec :
    (∀ (parse : String → ℤ) (ss : List Snapshot),
      100 < ss.length → (ss.map (·.timestamp)).Nodup →
      (ss.foldl (fun stored s => saveSnapshot parse s stored) []).length = 100 ∧
      (ss.foldl (fun stored s => saveSnapshot parse s stored) []).Pairwise (tsDesc parse)) ∧
    (∀ (parse : String → ℤ) (snapshots existing : List Snapshot),
      (saveBackfilledSnapshots parse snapshots existing).length ≤ 200 ∧
      (saveBackfilledSnapshots parse snapshots existing).Pairwise (tsDesc parse) ∧
      saveBackfilledSnapshots parse snapshots existing
        = (dedupByTimestamp ((snapshots ++ existing).insertionSort (tsDesc parse))).take 200 ∧
      (∀ a ∈ saveBackfilledSnapshots parse snapshots existing,
       ∀ b ∈ (dedupByTimestamp ((snapshots ++ existing).insertionSort (tsDesc parse))).drop 200,
        tsDesc parse a b)) := by
  constructor
  · intro parse ss hlen _hnodup
    constructor
    · rw [foldl_save_length parse ss [] (by simp)]
      simp
      omega
    · obtain ⟨s, acc2, heq⟩ := foldl_save_ends parse ss []
        (by intro h; rw [h] at hlen; simp at hlen)
      rw [heq]
      exact saveSnapshot_pairwise parse s acc2
  · intro parse snapshots existing
    have hsorted : ((snapshots ++ existing).insertionSort (tsDesc parse)).Pairwise
        (tsDesc parse) := by
      haveI : IsTotal Snapshot (tsDesc parse) := ⟨fun a b => Int.le_total _ _⟩
      haveI : IsTrans Snapshot (tsDesc parse) := ⟨fun a b c hab hbc => le_trans hbc hab⟩
      exact List.sorted_insertionSort (tsDesc parse) _
    have hmerged : (dedupByTimestamp
        ((snapshots ++ existing).insertionSort (tsDesc parse))).Pairwise (tsDesc parse) := by
      rw [dedupByTimestamp]
      exact List.Pairwise.sublist (dedupSeen_sublist _ []) hsorted
    refine ⟨?_, ?_, rfl, ?_⟩
    · simp [saveBackfilledSnapshots, List.length_take]
    · exact List.Pairwise.sublist (List.take_sublist _ _) hmerged
    · intro a ha b hb
      rw [← List.take_append_drop 200
        (dedupByTimestamp ((snapshots ++ existing).insertionSort (tsDesc parse)))] at hmerged
      obtain ⟨-, -, hrel⟩ := List.pairwise_append.mp hmerged
      exact hrel a ha b hb

/-- Witness for C4 at 101 concrete snapshots with distinct
timestamps. -/
theorem retention_spec_witness :
    (100 < rangeSnapshots.length ∧ (rangeSnapshots.map (·.timestamp)).Nodup) ∧
    ((rangeSnapshots.foldl (fun stored s => saveSnapshot constParse s stored) []).length = 100 ∧
     (rangeSnapshots.foldl (fun stored s => saveSnapshot constParse s stored) []).Pairwise
        (tsDesc constParse)) :=
  ⟨⟨by decide, by decide⟩,
    retention_spec.1 constParse rangeSnapshots (by decide) (by decide)⟩

/-- C7: given a response body, the snapshot parser fails exactly when
the parsed underlying price is 0 and the strike mapping is empty; in
particular an empty mapping with price 0 is rejected, while an empty
mapping with price 22000 is accepted and yields a snapshot with zero
strikes. -/
theorem fetchTrendlyneSnapshot_malformed_spec :
    (∀ (ed ts sym : String) (b : RawBody),
      fetchTrendlyneSnapshot ed ts sym (some b) = none
        ↔ (b.lp.getD 0 = 0 ∧ b.oiData = [])) ∧
    fetchTrendlyneSnapshot "2024-01-25" "10:00" "NIFTY" (some emptyBodyZero) = none ∧
    (fetchTrendlyneSnapshot "2024-01-25" "10:00" "NIFTY" (some emptyBodyPriced)).map
        (fun r => r.records.data) = some [] := by
  refine ⟨?_, by decide, by decide⟩
  intro ed ts sym b
  by_cases hcond : b.lp.getD 0 = 0 ∧ b.oiData = []
  · simp [fetchTrendlyneSnapshot, hcond]
  · simp [fetchTrendlyneSnapshot, hcond]

/-- Unrolling of the while loop of generateTimeIntervals for a
positive step: the loop emits the labels of the arithmetic sequence
current, current + step, ... up to and including the last value not
exceeding the end, i.e. the labels of List.range' with
(end - current) / step + 1 terms (none when current exceeds the
end). -/
theorem genTimesLoop_eq (step : ℕ) (hs : 0 < step) :
    ∀ (fuel cur e : ℕ), e + 1 - cur ≤ fuel →
      genTimesLoop step cur e =
        (List.range' cur (if cur ≤ e then (e - cur) / step + 1 else 0) step).map formatHHMM := by
  intro fuel
  induction fuel with
  | zero =>
    intro cur e h
    have hgt : ¬ cur ≤ e := by omega
    rw [genTimesLoop, dif_neg (fun hc => hgt hc.1), if_neg hgt]
    rfl
  | succ fuel ih =>
    intro cur e h
    by_cases hle : cur ≤ e
    · rw [genTimesLoop, dif_pos ⟨hle, hs⟩, if_pos hle, List.range'_succ, List.map_cons]
      congr 1
      rw [ih (cur + step) e (by omega)]
      by_cases h2 : cur + step ≤ e
      · rw [if_pos h2]
        have hdiv : (e - cur) / step = (e - cur - step) / step + 1 :=
          Nat.div_eq_sub_div hs (by omega)
        have h3 : e - (cur + step) = e - cur - step := by omega
        rw [h3, ← hdiv]
      · rw [if_neg h2]
        have hdiv : (e - cur) / step = 0 := Nat.div_eq_of_lt (by omega)
        rw [hdiv]
    · rw [genTimesLoop, dif_neg (fun hc => hle hc.1), if_neg hle]
      rfl

/-- C9: for every positive step, the interval loop returns exactly
the inclusive arithmetic sequence of HH:MM labels from the start
stepping by the given minutes while not exceeding the end; in
particular start 09:15, end 10:00, step 15 produces exactly the four
labels 09:15, 09:30, 09:45, 10:00. -/
theorem generateTimeIntervals_spec :
    (∀ (step cur e : ℕ), 0 < step →
      genTimesLoop step cur e =
        (List.range' cur (if cur ≤ e then (e - cur) / step + 1 else 0) step).map formatHHMM) ∧
    generateTimeIntervals "09:15" "10:00" 15 = ["09:15", "09:30", "09:45", "10:00"] := by
  constructor
  · intro step cur e hs
    exact genTimesLoop_eq step hs (e + 1 - cur) cur e le_rfl
  · simp [generateTimeIntervals, parseHHMM, digitsToNat, genTimesLoop]
    decide

/-- Witness for C9 at step 15 from minute 555 (09:15) to minute 600
(10:00). -/
theorem generateTimeIntervals_spec_witness :
    0 < 15 ∧
    genTimesLoop 15 555 600 =
      (List.range' 555 (if 555 ≤ 600 then (600 - 555) / 15 + 1 else 0) 15).map formatHHMM :=
  ⟨by decide, generateTimeIntervals_spec.1 15 555 600 (by decide)⟩
